import Mathlib

/-!
Verification development for `analyze_compositions.py`, a scanner that
extracts managed-resource associations from Crossplane Composition
manifests.  The Python source is shallowly embedded below: parsed YAML
documents become the inductive `Yaml`, the regex-based helpers become
explicit character-list scanners with the same search semantics, and
exceptions (AttributeError / KeyError raised on malformed shapes) become
`Except Unit` results.
-/

namespace AnalyzeCompositions

/-- A parsed YAML document as the Python code sees it after
`yaml.safe_load`: nested dicts, lists and scalars.  `str` is a Python
`str` scalar; `scalar` is any other scalar (number, bool), carrying its
Python `str()` rendering; `nullv` is Python `None`.  Python dicts have
unique keys, so an association list models one faithfully whenever its
keys are distinct; lookups take the first binding. -/
inductive Yaml where
  | str : String → Yaml
  | scalar : String → Yaml
  | nullv : Yaml
  | map : List (String × Yaml) → Yaml
  | seq : List Yaml → Yaml

/-- First-binding lookup, i.e. Python `dict.get(key)` for dicts with
unique keys. -/
def lookupY (key : String) : List (String × Yaml) → Option Yaml
  | [] => none
  | (k, v) :: rest => if k = key then some v else lookupY key rest

/-- Python `str()` of a value.  Claims only ever apply it to `str`
scalars (where it is the identity) or rely on defaults; the renderings
of containers are not modelled precisely. -/
def pyStr : Yaml → String
  | .str s => s
  | .scalar r => r
  | .nullv => "None"
  | .map _ => "mapping"
  | .seq _ => "sequence"

/-- Python's substring test `needle in hay`. -/
def containsSub (needle hay : String) : Bool :=
  decide (needle.toList <:+: hay.toList)

/-- Python `s.split("\n")` on character lists: split at every newline,
keeping empty pieces (so the result is always non-empty). -/
def splitLinesChars : List Char → List (List Char)
  | [] => [[]]
  | c :: cs =>
    if c = '\n' then [] :: splitLinesChars cs
    else
      match splitLinesChars cs with
      | [] => [[c]]
      | l :: ls => (c :: l) :: ls

/-- Python `s.split("\n")`. -/
def pySplit (s : String) : List String :=
  (splitLinesChars s.toList).map String.mk

/-- The ASCII whitespace stripped by Python `str.strip()` (the inputs
at issue contain no exotic Unicode whitespace). -/
def pyStripSpace (c : Char) : Bool :=
  c = ' ' || c = '\t' || c = '\n' || c = '\r' || c = '\x0b' || c = '\x0c'

/-- Python `s.strip()`. -/
def pyStrip (s : String) : String :=
  String.mk (((s.toList.dropWhile pyStripSpace).reverse.dropWhile pyStripSpace).reverse)

/-- Python `s.startswith(pre)`. -/
def pyStartsWith (s pre : String) : Bool :=
  pre.toList.isPrefixOf s.toList

/-- Python `" ".join(l)`. -/
def joinSpace : List String → String
  | [] => ""
  | [x] => x
  | x :: y :: xs => x ++ " " ++ joinSpace (y :: xs)

/-- The ASCII characters matched by Python's regex class `\s`
(the inputs at issue contain no exotic Unicode whitespace). -/
def pyIsSpace (c : Char) : Bool :=
  c = ' ' || c = '\t' || c = '\n' || c = '\r' || c = '\x0b' || c = '\x0c'

/-- A character admissible in a captured value of
`apiVersion:\s*([^\s\n{]+)`: neither whitespace nor an opening brace. -/
def reValueToken (c : Char) : Bool :=
  !(pyIsSpace c) && c != '\x7b'

/-- One attempt of the regex `<key>\s*([^\s\n{]+)` anchored at the start
of `s`: the literal key, then greedily skipped whitespace, then a
greedy non-empty run of value characters. -/
def tryValueAt (key s : List Char) : Option (List Char) :=
  if key.isPrefixOf s then
    if (((s.drop key.length).dropWhile pyIsSpace).takeWhile reValueToken).isEmpty then none
    else some (((s.drop key.length).dropWhile pyIsSpace).takeWhile reValueToken)
  else none

/-- `re.search` for the pattern `<key>\s*([^\s\n{]+)`: try every start
position from the left and return the first successful capture. -/
def reSearchValue (key : List Char) : List Char → Option (List Char)
  | [] => none
  | c :: cs =>
    match tryValueAt key (c :: cs) with
    | some v => some v
    | none => reSearchValue key cs

/-- Greedy backtracking of `[^.]+` before the literal domain `dom`:
try the longest run first, shrink until `dom` follows. -/
def labelBacktrack (dom s : List Char) : Nat → Option (List Char)
  | 0 => none
  | k + 1 =>
    if dom.isPrefixOf (s.drop (k + 1)) then some (s.take (k + 1))
    else labelBacktrack dom s k

/-- One attempt of the regex `([^.]+)<dom>` anchored at the start of
`s`, where `dom` begins with an escaped dot. -/
def tryLabelAt (dom s : List Char) : Option (List Char) :=
  labelBacktrack dom s ((s.takeWhile (fun c => c != '.')).length)

/-- `re.search` for `([^.]+)<dom>`: scan start positions left to
right. -/
def reSearchLabel (dom : List Char) : List Char → Option (List Char)
  | [] => none
  | c :: cs =>
    match tryLabelAt dom (c :: cs) with
    | some v => some v
    | none => reSearchLabel dom cs

/-- `CompositionExtractor._get_api_category`: the label immediately
before `.crossplane.io` (preferred) or `.upbound.io`, else "other". -/
def get_api_category (api_version : String) : String :=
  if api_version = "" then "other"
  else
    match reSearchLabel ".crossplane.io".toList api_version.toList with
    | some g => String.mk g
    | none =>
      match reSearchLabel ".upbound.io".toList api_version.toList with
      | some g => String.mk g
      | none => "other"

/-- `CompositionExtractor._is_crossplane_or_upbound_apiversion`. -/
def is_crossplane_or_upbound_apiversion (api_version : String) : Bool :=
  containsSub ".crossplane.io/" api_version || containsSub ".upbound.io/" api_version

/-- The `{apiVersion, kind}` result of the templated-fragment parser. -/
structure Frag where
  apiVersion : String
  kind : String
deriving DecidableEq, Repr

/-- `CompositionExtractor._parse_templated_yaml`: tolerant regex
extraction of `apiVersion` and `kind` from templated text; `none`
models the empty dict returned when either key is missing.  The
`.strip()` of the source is a no-op because a captured value contains
no whitespace characters, so it is omitted. -/
def parse_templated_yaml (content : String) : Option Frag :=
  match reSearchValue "apiVersion:".toList content.toList,
        reSearchValue "kind:".toList content.toList with
  | some a, some k => some ⟨String.mk a, String.mk k⟩
  | _, _ => none

/-- Python `list.index` for the first occurrence (returns the length
when absent; the source only ever asks for present elements). -/
def pyIndex : List String → String → Nat
  | [], _ => 0
  | a :: rest, x => if a = x then 0 else pyIndex rest x + 1

/-- Scanner state of `_extract_template_content`: the `in_yaml` flag,
the pending `current_doc` buffer, and the `yaml_docs` accumulator. -/
structure TState where
  inYaml : Bool
  currentDoc : List String
  yamlDocs : List (Option Frag)

/-- One iteration of the line loop of `_extract_template_content`,
with the three-line confirmation window taken at position `idx`.
The source computes `idx` as `lines.index(line)` — the first occurrence
of an equal line (see `stepLine`); the specification words it as the
current scanning position (see `stepLineSpec`). -/
def stepLineAt (lines : List String) (idx : Nat) (st : TState) (line : String) : TState :=
  if pyStartsWith (pyStrip line) "#" then st
  else
    let window := String.join ((lines.drop idx).take 3)
    let trigger := containsSub "apiVersion:" line &&
      (containsSub "kind:" window || containsSub "metadata:" window)
    let st1 :=
      if trigger then
        { inYaml := true, currentDoc := [],
          yamlDocs :=
            if st.inYaml && !st.currentDoc.isEmpty then
              st.yamlDocs ++ [parse_templated_yaml (joinSpace st.currentDoc)]
            else st.yamlDocs }
      else st
    let st2 := if st1.inYaml then { st1 with currentDoc := st1.currentDoc ++ [line] } else st1
    if pyStrip line = "---" && st2.inYaml then
      { inYaml := false, currentDoc := [],
        yamlDocs :=
          if !st2.currentDoc.isEmpty then
            st2.yamlDocs ++ [parse_templated_yaml (joinSpace st2.currentDoc)]
          else st2.yamlDocs }
    else st2

/-- The source's line step: the window starts at `lines.index(line)`,
the first occurrence of a line equal to the current one. -/
def stepLine (lines : List String) (st : TState) (line : String) : TState :=
  stepLineAt lines (pyIndex lines line) st line

/-- End-of-input flush of `_extract_template_content`. -/
def flushTState (st : TState) : List (Option Frag) :=
  if st.currentDoc.isEmpty then st.yamlDocs
  else st.yamlDocs ++ [parse_templated_yaml (joinSpace st.currentDoc)]

/-- `_extract_template_content` on an already-split line list. -/
def extractTemplateLines (lines : List String) : List Frag :=
  (flushTState (lines.foldl (stepLine lines) ⟨false, [], []⟩)).filterMap id

/-- `CompositionExtractor._extract_template_content`.  Its
`try/except` wrapper is not modelled: no statement in the loop body can
raise (every `lines.index(line)` call receives an element of
`lines`). -/
def extract_template_content (template_str : String) : List Frag :=
  extractTemplateLines (pySplit template_str)

/-- The line step as the specification words it: the confirmation
window starts at the current scanning position `i`. -/
def stepLineSpec (lines : List String) (i : Nat) (st : TState) (line : String) : TState :=
  stepLineAt lines i st line

/-- Position-tracking driver for `stepLineSpec`. -/
def goSpecLines (lines : List String) : Nat → List String → TState → TState
  | _, [], st => st
  | i, l :: rest, st => goSpecLines lines (i + 1) rest (stepLineSpec lines i st l)

/-- Modelled from the spec: the Template Content Extractor with the
confirmation window taken at the current scanning position (spec 4.2 /
claim C2), for comparison with the source's `extract_template_content`. -/
def extractTemplateLinesSpec (lines : List String) : List Frag :=
  (flushTState (goSpecLines lines 0 lines ⟨false, [], []⟩)).filterMap id

/-- String-level entry point of `extractTemplateLinesSpec`. -/
def extractTemplateContentSpec (template_str : String) : List Frag :=
  extractTemplateLinesSpec (pySplit template_str)

/-- One discovered resource association, i.e. one element of the
source's `special_resources` list.  `category` is `none` for the
placeholder dict, which is built without a `"category"` key. -/
structure Resource where
  kind_api_version : String
  kind : String
  api_version : String
  category : Option String
deriving DecidableEq, Repr

/-- The sibling `obj.get("kind", "N/A")` rendered into the composite
key, as in `f"{kind}_{value}"`. -/
def kindOf (es : List (String × Yaml)) : String :=
  match lookupY "kind" es with
  | some y => pyStr y
  | none => "N/A"

/-- The association appended by `_recursive_search` for a matching
`apiVersion` value found in the mapping `es`. -/
def mkResource (es : List (String × Yaml)) (value : String) : Resource :=
  { kind_api_version := kindOf es ++ "_" ++ value
    kind := kindOf es
    api_version := value
    category := some (get_api_category value) }

/-- The visit of one key/value pair by `_recursive_search`: emit an
association when the key is `apiVersion` and the string value passes
the domain filter. -/
def searchHit (full : List (String × Yaml)) (k : String) (v : Yaml) : List Resource :=
  if k = "apiVersion" then
    match v with
    | .str s => if is_crossplane_or_upbound_apiversion s then [mkResource full s] else []
    | _ => []
  else []

mutual
/-- `_recursive_search`: walk every mapping and sequence, collecting
matching `apiVersion` values paired with the sibling `kind`. -/
def recursive_search : Yaml → List Resource
  | .map es => searchEntries es es
  | .seq xs => searchList xs
  | _ => []
/-- Iteration over a mapping's items: the possible hit for this pair,
then the recursive descent into the value, then the rest. -/
def searchEntries (full : List (String × Yaml)) : List (String × Yaml) → List Resource
  | [] => []
  | (k, v) :: rest => searchHit full k v ++ recursive_search v ++ searchEntries full rest
/-- Iteration over a sequence's items. -/
def searchList : List Yaml → List Resource
  | [] => []
  | v :: rest => recursive_search v ++ searchList rest
end

/-- One row of the source's `extraction_results` list. -/
structure Record where
  filePath : String
  compositionKindApiVersion : String
  kindApiVersion : String
  kind : String
  apiVersion : String
  category : String
deriving DecidableEq, Repr

/-- The placeholder substituted when `special_resources` is empty; note
the missing `category` key (`none`). -/
def placeholderResource : Resource :=
  { kind_api_version := "N/A", kind := "N/A", api_version := "N/A", category := none }

/-- Building one extraction row from a resource dict.  Reading
`resource["category"]` raises `KeyError` when the key is absent, which
is the `.error` case. -/
def rowOf (path ck : String) (r : Resource) : Except Unit Record :=
  match r.category with
  | some c =>
    .ok { filePath := path, compositionKindApiVersion := ck,
          kindApiVersion := r.kind_api_version, kind := r.kind,
          apiVersion := r.api_version, category := c }
  | none => .error ()

/-- The Composition guard of `_extract_composition_details`:
`doc.get("apiVersion") == "apiextensions.crossplane.io/v1"` and
`doc.get("kind") == "Composition"` (comparison with a non-string or
missing value is simply unequal). -/
def isCompositionDoc (es : List (String × Yaml)) : Bool :=
  match lookupY "apiVersion" es, lookupY "kind" es with
  | some (.str a), some (.str k) =>
    a = "apiextensions.crossplane.io/v1" && k = "Composition"
  | _, _ => false

/-- Python `x.get(key, dflt)`: an `AttributeError` (`.error`) unless
`x` is a dict. -/
def pyGetAttr (y : Yaml) (key : String) (dflt : Yaml) : Except Unit Yaml :=
  match y with
  | .map es => .ok ((lookupY key es).getD dflt)
  | _ => .error ()

/-- Python `for item in x` materialised as a list.  Iterating a
non-empty dict yields its keys and iterating a non-empty string yields
characters; in every use site each item immediately receives a `.get`,
which raises on those, so they are folded into the `.error` case. -/
def pyIterList : Yaml → Except Unit (List Yaml)
  | .seq xs => .ok xs
  | .map [] => .ok []
  | .str s => if s = "" then .ok [] else .error ()
  | _ => .error ()

/-- Lines 195-196: `spec.compositeTypeRef` read with `{}` defaults,
rendered as `f"{kind}_{apiVersion}"`. -/
def compositeKeyOf (es : List (String × Yaml)) : Except Unit String := do
  let specV ← pyGetAttr (.map es) "spec" (.map [])
  let ctr ← pyGetAttr specV "compositeTypeRef" (.map [])
  let kv ← pyGetAttr ctr "kind" (.str "N/A")
  let av ← pyGetAttr ctr "apiVersion" (.str "N/A")
  pure (pyStr kv ++ "_" ++ pyStr av)

/-- `func.get("functionRef", {}).get("name", "N/A")` for one pipeline
step. -/
def functionNameOfStep (f : Yaml) : Except Unit Yaml := do
  let fr ← pyGetAttr f "functionRef" (.map [])
  pyGetAttr fr "name" (.str "N/A")

/-- Lines 199-202: the `function_refs` list comprehension over
`spec.pipeline`. -/
def functionNamesOf (es : List (String × Yaml)) : Except Unit (List Yaml) := do
  let specV ← pyGetAttr (.map es) "spec" (.map [])
  let p ← pyGetAttr specV "pipeline" (.seq [])
  let steps ← pyIterList p
  steps.mapM functionNameOfStep

/-- `step.get("input", {}).get("inline", {}).get("template", "")`
followed by the truthiness test.  A falsy template (empty string or
container, `None`) is skipped; a non-string truthy value would make
`template_str.split` raise.  (Falsy numeric scalars are not
distinguished from truthy ones by this model; no claim involves
them.) -/
def templateOf (step : Yaml) : Except Unit (Option String) := do
  let inp ← pyGetAttr step "input" (.map [])
  let inl ← pyGetAttr inp "inline" (.map [])
  let t ← pyGetAttr inl "template" (.str "")
  match t with
  | .str s => pure (if s = "" then none else some s)
  | .nullv => pure none
  | .map [] => pure none
  | .seq [] => pure none
  | _ => .error ()

/-- A parsed template fragment as the dict `{"apiVersion": ..,
"kind": ..}` handed back to `_recursive_search`. -/
def fragToYaml (f : Frag) : Yaml :=
  .map [("apiVersion", .str f.apiVersion), ("kind", .str f.kind)]

/-- Lines 239-247: the template loop — for each pipeline step with a
non-empty inline template, extract fragments and rescan each. -/
def templateResourcesOf (es : List (String × Yaml)) : Except Unit (List Resource) := do
  let specV ← pyGetAttr (.map es) "spec" (.map [])
  let p ← pyGetAttr specV "pipeline" (.seq [])
  let steps ← pyIterList p
  let rss ← steps.mapM (fun step => do
    let t ← templateOf step
    match t with
    | none => pure ([] : List Resource)
    | some s =>
      pure (((extract_template_content s).map (fun f => recursive_search (fragToYaml f))).flatten))
  pure rss.flatten

/-- Structural equality of hashable (scalar) values; on the values the
function catalog can actually hold it coincides with `=`, and it never
identifies a container with anything. -/
def scalarEq : Yaml → Yaml → Bool
  | .str a, .str b => a = b
  | .scalar a, .scalar b => a = b
  | .nullv, .nullv => true
  | _, _ => false

/-- Whether a Python value is hashable (addable to a set). -/
def hashableY : Yaml → Bool
  | .map _ => false
  | .seq _ => false
  | _ => true

/-- Adding one element to the `unique_functions` set. -/
def catInsert (cat : List Yaml) (n : Yaml) : List Yaml :=
  if cat.any (fun m => scalarEq m n) then cat else cat ++ [n]

/-- `self.unique_functions.update(function_refs)`: add elements one at
a time; an unhashable element raises, keeping the part already
added. -/
def catUpdate : List Yaml → List Yaml → List Yaml × Except Unit Unit
  | cat, [] => (cat, .ok ())
  | cat, n :: rest =>
    if hashableY n then catUpdate (catInsert cat n) rest else (cat, .error ())

/-- `CompositionExtractor._extract_composition_details`, with the
process-wide `unique_functions` catalog threaded explicitly and a
raised exception modelled as `.error`.  The catalog is returned even
when a later step raises (the set mutation is not rolled back). -/
def extract_composition_details (doc : Yaml) (path : String) (cat : List Yaml) :
    List Yaml × Except Unit (List Record) :=
  match doc with
  | .map es =>
    if isCompositionDoc es then
      match compositeKeyOf es with
      | .error e => (cat, .error e)
      | .ok ck =>
        match functionNamesOf es with
        | .error e => (cat, .error e)
        | .ok names =>
          let direct := recursive_search (.map es)
          match templateResourcesOf es with
          | .error e => (cat, .error e)
          | .ok tres =>
            let special0 := direct ++ tres
            let special := if special0.isEmpty then [placeholderResource] else special0
            let cu := catUpdate cat names
            match cu.2 with
            | .error e => (cu.1, .error e)
            | .ok _ => (cu.1, special.mapM (rowOf path ck))
    else (cat, .ok [])
  | _ => (cat, .error ())

/-- One candidate file: its path and the stream of documents the
loader yields, where `.error` is an I/O or parse failure surfacing at
that point of the lazy stream and `.ok none` is an empty (falsy)
document skipped by `if doc:`. -/
structure FileInput where
  path : String
  items : List (Except Unit (Option Yaml))

/-- The per-file body of `extract_compositions`: documents are
processed in order inside one `try`; the first raised exception
abandons the rest of the file but keeps earlier appends and catalog
updates. -/
def processItems (path : String) (cat : List Yaml) :
    List (Except Unit (Option Yaml)) → List Yaml × List Record
  | [] => (cat, [])
  | .error _ :: _ => (cat, [])
  | .ok none :: rest => processItems path cat rest
  | .ok (some d) :: rest =>
    let r := extract_composition_details d path cat
    match r.2 with
    | .error _ => (r.1, [])
    | .ok rows =>
      let next := processItems path r.1 rest
      (next.1, rows ++ next.2)

/-- `CompositionExtractor.extract_compositions`: files one at a time,
per-file failures caught and skipped, the record list and function
catalog growing monotonically. -/
def extract_compositions (cat : List Yaml) : List FileInput → List Yaml × List Record
  | [] => (cat, [])
  | f :: fs =>
    let r := processItems f.path cat f.items
    let next := extract_compositions r.1 fs
    (next.1, r.2 ++ next.2)

/-- The records of a whole run started with an empty catalog. -/
def runRecords (files : List FileInput) : List Record :=
  (extract_compositions [] files).2

/-- The records contributed by a single file. -/
def fileRecords (f : FileInput) : List Record :=
  (processItems f.path [] f.items).2

/-- One row of the MR-statistics sheet. -/
structure MRStat where
  kindApiVersion : String
  kind : String
  apiVersion : String
  category : String
  totalOccurrences : Nat
  foundInNFiles : Nat
  usedByNCompositions : Nat
deriving DecidableEq, Repr

/-- The four-column grouping key of `_get_mr_statistics`. -/
def statKeyOf (r : Record) : String × String × String × String :=
  (r.kindApiVersion, r.kind, r.apiVersion, r.category)

/-- The aggregate row for one group: the group size, the number of
distinct files, and the number of distinct composition keys. -/
def statRowOf (records : List Record) (k : String × String × String × String) : MRStat :=
  let grp := records.filter (fun r => decide (statKeyOf r = k))
  { kindApiVersion := k.1, kind := k.2.1, apiVersion := k.2.2.1, category := k.2.2.2,
    totalOccurrences := grp.length,
    foundInNFiles := (grp.map Record.filePath).dedup.length,
    usedByNCompositions := (grp.map Record.compositionKindApiVersion).dedup.length }

/-- Descending order on `Total Occurrences`, the final
`sort_values(..., ascending=False)`. -/
def statGE (a b : MRStat) : Prop :=
  b.totalOccurrences ≤ a.totalOccurrences

instance : DecidableRel statGE :=
  fun a b => Nat.decLe b.totalOccurrences a.totalOccurrences

/-- `CompositionExtractor._get_mr_statistics`: empty input yields an
empty frame; otherwise one row per distinct grouping key, sorted by
descending occurrence count.  (The sort algorithm and the enumeration
order of groups differ from pandas only by a permutation of
equal-keyed rows, which no claim depends on.) -/
def get_mr_statistics (records : List Record) : List MRStat :=
  if records.isEmpty then []
  else List.insertionSort statGE ((records.map statKeyOf).dedup.map (statRowOf records))


/-! ## Lemmas and claim theorems -/

lemma sum_map_add {α : Type} (f g : α → Nat) (l : List α) :
    (l.map fun x => f x + g x).sum = (l.map f).sum + (l.map g).sum := by
  induction l with
  | nil => simp
  | cons a l ih => simp [ih]; omega

lemma sum_ite_of_not_mem {α : Type} [DecidableEq α] {a : α} {m : List α} (h : a ∉ m) :
    (m.map fun k => if a = k then 1 else 0).sum = 0 := by
  induction m with
  | nil => simp
  | cons b m ih =>
    have hb : a ≠ b := fun hab => h (hab ▸ List.mem_cons_self b m)
    simp only [List.map_cons, List.sum_cons, if_neg hb, Nat.zero_add]
    exact ih (fun hm => h (List.mem_cons_of_mem b hm))

lemma sum_ite_of_nodup_mem {α : Type} [DecidableEq α] {a : α} {m : List α}
    (hn : m.Nodup) (h : a ∈ m) :
    (m.map fun k => if a = k then 1 else 0).sum = 1 := by
  induction m with
  | nil => cases h
  | cons b m ih =>
    rcases List.mem_cons.mp h with hab | hm
    · subst hab
      simp only [List.map_cons, List.sum_cons, if_pos rfl]
      rw [sum_ite_of_not_mem (List.Nodup.not_mem hn)]
      simp
    · have hb : a ≠ b := by
        rintro rfl; exact (List.Nodup.not_mem hn) hm
      simp only [List.map_cons, List.sum_cons, if_neg hb, Nat.zero_add]
      exact ih (List.Nodup.of_cons hn) hm

lemma sum_countP_dedup {α : Type} [DecidableEq α] (l : List α) :
    (l.dedup.map fun k => l.countP (fun x => decide (x = k))).sum = l.length := by
  induction l with
  | nil => simp
  | cons a l ih =>
    have hstep : ∀ k : α, (a :: l).countP (fun x => decide (x = k)) =
        l.countP (fun x => decide (x = k)) + (if a = k then 1 else 0) := by
      intro k
      rw [List.countP_cons]
      by_cases hak : a = k <;> simp [hak]
    by_cases ha : a ∈ l
    · rw [List.dedup_cons_of_mem ha]
      have hfun : (fun k => (a :: l).countP (fun x => decide (x = k))) =
          fun k => l.countP (fun x => decide (x = k)) + (if a = k then 1 else 0) :=
        funext hstep
      rw [hfun, sum_map_add, ih,
        sum_ite_of_nodup_mem (List.nodup_dedup l) (List.mem_dedup.mpr ha)]
      simp
    · rw [List.dedup_cons_of_not_mem ha]
      simp only [List.map_cons, List.sum_cons]
      have h1 : (a :: l).countP (fun x => decide (x = a)) =
          l.countP (fun x => decide (x = a)) + 1 := by
        rw [hstep a]; simp
      have h0 : l.countP (fun x => decide (x = a)) = 0 := by
        rw [List.countP_eq_zero]
        intro x hx
        simp only [decide_eq_true_eq]
        rintro rfl; exact ha hx
      have hrest : (l.dedup.map fun k => (a :: l).countP (fun x => decide (x = k))).sum =
          (l.dedup.map fun k => l.countP (fun x => decide (x = k))).sum := by
        rw [funext hstep, sum_map_add, sum_ite_of_not_mem (fun hm => ha (List.mem_dedup.mp hm))]
        simp
      rw [h1, h0, hrest, ih]
      simp [Nat.add_comm]

/-- C3: the aggregator's statistics round-trip: the sum of
`totalOccurrences` over all rows of `get_mr_statistics` equals the
number of input extraction records — no record is lost or
double-counted by the grouping. -/
theorem c3_aggregation_round_trip (records : List Record) :
    ((get_mr_statistics records).map MRStat.totalOccurrences).sum = records.length := by
  unfold get_mr_statistics
  by_cases h : records.isEmpty
  · rw [if_pos h, List.isEmpty_iff.mp h]
    simp
  · rw [if_neg h]
    have hperm := (List.perm_insertionSort statGE
      ((records.map statKeyOf).dedup.map (statRowOf records))).map MRStat.totalOccurrences
    rw [hperm.sum_eq, List.map_map]
    have hcomp : (MRStat.totalOccurrences ∘ statRowOf records) =
        fun k => (records.map statKeyOf).countP (fun x => decide (x = k)) := by
      funext k
      simp only [Function.comp, statRowOf, List.countP_map]
      rw [← List.countP_eq_length_filter]
      rfl
    rw [hcomp, sum_countP_dedup, List.length_map]

/-- C4: the category derivation at the specification's reference
points: the label before `.upbound.io` for `aws.upbound.io/v1beta1`,
the label before `.crossplane.io` for `fn.crossplane.io/v1beta1`,
`other` when no suffix matches or the input is empty, and the
`.crossplane.io` pattern takes precedence when both domains occur. -/
theorem c4_category_of_api_version :
    get_api_category "aws.upbound.io/v1beta1" = "aws" ∧
    get_api_category "fn.crossplane.io/v1beta1" = "fn" ∧
    get_api_category "v1" = "other" ∧
    get_api_category "" = "other" ∧
    get_api_category "b.crossplane.io/v1.a.upbound.io/v1" = "b" := by
  refine ⟨by decide, by decide, by decide, by decide, by decide⟩

lemma pyIndex_of_drop (full : List String) (hnd : full.Nodup) :
    ∀ (i : Nat) (x : String) (rest : List String), full.drop i = x :: rest → pyIndex full x = i := by
  induction full with
  | nil =>
    intro i x rest h
    rw [List.drop_nil] at h
    cases h
  | cons a as ih =>
    intro i x rest h
    cases i with
    | zero =>
      rw [List.drop_zero] at h
      injection h with h1 h2
      subst h1
      simp [pyIndex]
    | succ i =>
      rw [List.drop_succ_cons] at h
      have hx : x ∈ as := by
        refine List.mem_of_mem_drop (n := i) ?_
        rw [h]
        exact List.mem_cons_self x rest
      have hax : a ≠ x := fun he => (List.Nodup.not_mem hnd) (he ▸ hx)
      simp only [pyIndex, if_neg hax]
      rw [ih (List.Nodup.of_cons hnd) i x rest h]

lemma foldl_stepLine_eq_goSpec (full : List String) (hnd : full.Nodup) :
    ∀ (rem : List String) (i : Nat) (st : TState), full.drop i = rem →
      rem.foldl (stepLine full) st = goSpecLines full i rem st := by
  intro rem
  induction rem with
  | nil => intro i st h; rfl
  | cons l rest ih =>
    intro i st h
    have hidx : pyIndex full l = i := pyIndex_of_drop full hnd i l rest h
    have hrest : full.drop (i + 1) = rest := by
      have hd := List.drop_drop 1 i full
      rw [h] at hd
      simpa using hd.symm
    show List.foldl (stepLine full) (stepLine full st l) rest =
      goSpecLines full (i + 1) rest (stepLineSpec full i st l)
    have hstep : stepLine full st l = stepLineSpec full i st l := by
      unfold stepLine stepLineSpec
      rw [hidx]
    rw [hstep]
    exact ih (i + 1) _ hrest

/-- C2 counterexample: in the blob below the line `apiVersion: a`
occurs twice; at its second occurrence the source takes the
confirmation window at the first occurrence (`lines.index(line)`),
which does contain `kind:`, so a new document is triggered and the
buffer is flushed — although the window at the current scanning
position (`apiVersion: a`, `z`, `z`) contains neither `kind:` nor
`metadata:`.  The source returns two fragments where the claimed
current-position rule returns one, refuting the claim as stated. -/
theorem c2_counterexample :
    extract_template_content "apiVersion: a\nkind: K1\napiVersion: a\nz\nz\nkind: K2" ≠
      extractTemplateContentSpec "apiVersion: a\nkind: K1\napiVersion: a\nz\nz\nkind: K2" := by
  decide

/-- C2 (amended): the confirmation window is taken at the first
occurrence in the blob of a line equal to the current one; when no two
lines of the blob are equal this is the current scanning position, and
the claimed boundary rule (a new candidate document starts iff the
line contains `apiVersion:` and the three-line window contains `kind:`
or `metadata:`, the buffer being flushed through the fragment parser
on a trigger while in-document) holds exactly. -/
theorem c2_trigger_window (blob : String) (h : (pySplit blob).Nodup) :
    extract_template_content blob = extractTemplateContentSpec blob := by
  unfold extract_template_content extractTemplateContentSpec
  unfold extractTemplateLines extractTemplateLinesSpec
  rw [foldl_stepLine_eq_goSpec (pySplit blob) h (pySplit blob) 0 _ (by rw [List.drop_zero])]

/-- Witness for `c2_trigger_window` at a concrete duplicate-free
blob. -/
theorem c2_trigger_window_witness :
    (pySplit "apiVersion: a\nkind: K1").Nodup ∧
    extract_template_content "apiVersion: a\nkind: K1" =
      extractTemplateContentSpec "apiVersion: a\nkind: K1" :=
  ⟨by decide, c2_trigger_window "apiVersion: a\nkind: K1" (by decide)⟩


/-- Reachability of a sub-value inside a parsed document: the
reflexive-transitive descent through mapping values and sequence
items, exactly the positions `_recursive_search` visits. -/
inductive Reaches : Yaml → Yaml → Prop where
  | refl (y : Yaml) : Reaches y y
  | intoMap {es : List (String × Yaml)} {k : String} {v y : Yaml} :
      (k, v) ∈ es → Reaches v y → Reaches (.map es) y
  | intoSeq {xs : List Yaml} {v y : Yaml} :
      v ∈ xs → Reaches v y → Reaches (.seq xs) y

lemma lookupY_mem : ∀ {es : List (String × Yaml)} {k : String} {v : Yaml},
    lookupY k es = some v → (k, v) ∈ es := by
  intro es
  induction es with
  | nil => intro k v h; cases h
  | cons p rest ih =>
    intro k v h
    obtain ⟨k0, v0⟩ := p
    by_cases hk : k0 = k
    · subst hk
      rw [lookupY, if_pos rfl] at h
      injection h with h
      subst h
      exact List.mem_cons_self _ _
    · rw [lookupY, if_neg hk] at h
      exact List.mem_cons_of_mem _ (ih h)

lemma mem_searchEntries_of_mem_value {r : Resource} {full : List (String × Yaml)} :
    ∀ {l : List (String × Yaml)} {k : String} {v : Yaml}, (k, v) ∈ l →
      r ∈ recursive_search v → r ∈ searchEntries full l := by
  intro l
  induction l with
  | nil => intro k v h; cases h
  | cons p rest ih =>
    intro k v h hr
    obtain ⟨k0, v0⟩ := p
    simp only [searchEntries, List.mem_append]
    rcases List.mem_cons.mp h with he | hm
    · injection he with he1 he2
      subst he2
      exact Or.inl (Or.inr hr)
    · exact Or.inr (ih hm hr)

lemma mem_searchList_of_mem {r : Resource} :
    ∀ {xs : List Yaml} {v : Yaml}, v ∈ xs → r ∈ recursive_search v → r ∈ searchList xs := by
  intro xs
  induction xs with
  | nil => intro v h; cases h
  | cons w rest ih =>
    intro v h hr
    simp only [searchList, List.mem_append]
    rcases List.mem_cons.mp h with he | hm
    · subst he; exact Or.inl hr
    · exact Or.inr (ih hm hr)

lemma mem_recursive_search_of_reaches {r : Resource} {x y : Yaml}
    (hxy : Reaches x y) : r ∈ recursive_search y → r ∈ recursive_search x := by
  induction hxy with
  | refl => exact id
  | intoMap hmem _ ih =>
    intro hr
    simp only [recursive_search]
    exact mem_searchEntries_of_mem_value hmem (ih hr)
  | intoSeq hmem _ ih =>
    intro hr
    simp only [recursive_search]
    exact mem_searchList_of_mem hmem (ih hr)

lemma mkResource_mem_searchEntries {full : List (String × Yaml)} :
    ∀ {l : List (String × Yaml)} {a : String}, ("apiVersion", Yaml.str a) ∈ l →
      is_crossplane_or_upbound_apiversion a = true →
      mkResource full a ∈ searchEntries full l := by
  intro l
  induction l with
  | nil => intro a h; cases h
  | cons p rest ih =>
    intro a h hf
    obtain ⟨k0, v0⟩ := p
    simp only [searchEntries, List.mem_append]
    rcases List.mem_cons.mp h with he | hm
    · injection he with he1 he2
      subst he1
      subst he2
      refine Or.inl (Or.inl ?_)
      simp [searchHit, hf]
    · exact Or.inr (ih hm hf)

/-- C5: for every parsed document and every mapping reachable in it at
any depth, if the mapping's `apiVersion` key holds a string matching
the domain filter, `_recursive_search` emits an association whose kind
is the sibling `kind` of the same mapping (with the `N/A` default
folded into `kindOf`) and whose category is derived from the
`apiVersion`. -/
theorem c5_recursive_scanner (doc : Yaml) (es : List (String × Yaml)) (a : String)
    (hreach : Reaches doc (.map es))
    (hlook : lookupY "apiVersion" es = some (.str a))
    (hfilter : is_crossplane_or_upbound_apiversion a = true) :
    ∃ r ∈ recursive_search doc, r.kind = kindOf es ∧ r.api_version = a ∧
      r.category = some (get_api_category a) ∧
      r.kind_api_version = kindOf es ++ "_" ++ a := by
  refine ⟨mkResource es a, ?_, rfl, rfl, rfl, rfl⟩
  refine mem_recursive_search_of_reaches hreach ?_
  simp only [recursive_search]
  exact mkResource_mem_searchEntries (lookupY_mem hlook) hfilter

/-- Witness for `c5_recursive_scanner`: the specification's scenario —
`spec.forProvider.manifest.apiVersion: ec2.aws.upbound.io/v1beta1`
with sibling `kind: Instance` is found at depth and categorised
`aws`. -/
theorem c5_recursive_scanner_witness :
    ∃ r ∈ recursive_search (.map [("spec", .map [("forProvider", .map [("manifest",
        .map [("apiVersion", .str "ec2.aws.upbound.io/v1beta1"),
              ("kind", .str "Instance")])])])]),
      r.kind = "Instance" ∧ r.api_version = "ec2.aws.upbound.io/v1beta1" ∧
      r.category = some "aws" ∧
      r.kind_api_version = "Instance_ec2.aws.upbound.io/v1beta1" := by
  have h := c5_recursive_scanner
    (.map [("spec", .map [("forProvider", .map [("manifest",
        .map [("apiVersion", .str "ec2.aws.upbound.io/v1beta1"),
              ("kind", .str "Instance")])])])])
    [("apiVersion", .str "ec2.aws.upbound.io/v1beta1"), ("kind", .str "Instance")]
    "ec2.aws.upbound.io/v1beta1"
    (Reaches.intoMap (List.mem_cons_self _ _)
      (Reaches.intoMap (List.mem_cons_self _ _)
        (Reaches.intoMap (List.mem_cons_self _ _) (Reaches.refl _))))
    rfl (by decide)
  obtain ⟨r, hr, h1, h2, h3, h4⟩ := h
  exact ⟨r, hr, h1.trans (by decide), h2, h3.trans (by decide), h4.trans (by decide)⟩

/-- C1 (code bug): (1) the claim's premise is unsatisfiable — for
every document accepted as a Composition the recursive scan is
non-empty, because the document's own `apiVersion` value
`apiextensions.crossplane.io/v1` itself matches the domain filter, so
the placeholder branch of `_extract_composition_details` can never
run; and (2) the placeholder dict is built without a `"category"` key,
so emitting its row would raise `KeyError` (`.error`) instead of
producing the claimed placeholder record. -/
theorem c1_placeholder_dead_and_raises :
    (∀ es : List (String × Yaml), isCompositionDoc es = true →
      recursive_search (.map es) ≠ []) ∧
    rowOf "manifests/example.yaml" "XR_example.org/v1" placeholderResource = .error () := by
  constructor
  · intro es h
    unfold isCompositionDoc at h
    split at h
    case _ a k hA hK =>
      rw [Bool.and_eq_true, decide_eq_true_eq, decide_eq_true_eq] at h
      obtain ⟨ha, hk⟩ := h
      subst ha
      simp only [recursive_search]
      exact List.ne_nil_of_mem
        (mkResource_mem_searchEntries (lookupY_mem hA) (by decide))
    case _ => cases h
  · rfl

/-- Witness for `c1_placeholder_dead_and_raises`: a minimal accepted
Composition document on which the scan is provably non-empty. -/
theorem c1_placeholder_dead_and_raises_witness :
    isCompositionDoc [("apiVersion", .str "apiextensions.crossplane.io/v1"),
        ("kind", .str "Composition")] = true ∧
    recursive_search (.map [("apiVersion", .str "apiextensions.crossplane.io/v1"),
        ("kind", .str "Composition")]) ≠ [] :=
  ⟨rfl, c1_placeholder_dead_and_raises.1
    [("apiVersion", .str "apiextensions.crossplane.io/v1"),
     ("kind", .str "Composition")] rfl⟩


lemma tryValueAt_some {key s v : List Char} (h : tryValueAt key s = some v) :
    v ≠ [] ∧ (∀ c ∈ v, reValueToken c = true) ∧ v <:+: s := by
  unfold tryValueAt at h
  by_cases hp : key.isPrefixOf s
  · rw [if_pos hp] at h
    by_cases he : (((s.drop key.length).dropWhile pyIsSpace).takeWhile reValueToken).isEmpty
    · rw [if_pos he] at h; cases h
    · rw [if_neg he] at h
      injection h with h
      subst h
      refine ⟨?_, fun c hc => List.mem_takeWhile_imp hc, ?_⟩
      · intro hnil
        rw [hnil] at he
        exact he rfl
      · have h1 : (((s.drop key.length).dropWhile pyIsSpace).takeWhile reValueToken) <+:
            ((s.drop key.length).dropWhile pyIsSpace) := List.takeWhile_prefix _
        have h2 : ((s.drop key.length).dropWhile pyIsSpace) <:+ (s.drop key.length) :=
          List.dropWhile_suffix _
        have h3 : (s.drop key.length) <:+ s := List.drop_suffix _ _
        exact List.IsInfix.trans (List.IsPrefix.isInfix h1)
          (List.IsSuffix.isInfix (List.IsSuffix.trans h2 h3))
  · rw [if_neg hp] at h; cases h

lemma reSearchValue_some {key : List Char} :
    ∀ {s v : List Char}, reSearchValue key s = some v →
      v ≠ [] ∧ (∀ c ∈ v, reValueToken c = true) ∧ v <:+: s := by
  intro s
  induction s with
  | nil => intro v h; cases h
  | cons c cs ih =>
    intro v h
    rw [reSearchValue] at h
    cases htry : tryValueAt key (c :: cs) with
    | some w =>
      rw [htry] at h
      injection h with h
      subst h
      exact tryValueAt_some htry
    | none =>
      rw [htry] at h
      obtain ⟨h1, h2, h3⟩ := ih h
      exact ⟨h1, h2, List.infix_cons h3⟩

lemma reValueToken_spec {c : Char} (h : reValueToken c = true) :
    pyIsSpace c = false ∧ c ≠ '\x7b' := by
  rw [reValueToken, Bool.and_eq_true, Bool.not_eq_true', bne_iff_ne] at h
  exact h

/-- C7: the templated-fragment parser never raises (it is a total
function) and returns `{apiVersion, kind}` exactly when scalar values
for both keys are found: each captured value is non-empty, contains
neither whitespace nor a template-action opening brace (matched up to
the first such delimiter), and occurs in the input; when either search
fails the parser returns the empty result. -/
theorem c7_parse_templated_yaml_contract (content : String) :
    (∀ f, parse_templated_yaml content = some f →
      (∃ va, reSearchValue "apiVersion:".toList content.toList = some va ∧
        f.apiVersion = String.mk va ∧ va ≠ [] ∧
        (∀ c ∈ va, pyIsSpace c = false ∧ c ≠ '\x7b') ∧ va <:+: content.toList) ∧
      (∃ vk, reSearchValue "kind:".toList content.toList = some vk ∧
        f.kind = String.mk vk ∧ vk ≠ [] ∧
        (∀ c ∈ vk, pyIsSpace c = false ∧ c ≠ '\x7b') ∧ vk <:+: content.toList)) ∧
    (parse_templated_yaml content = none →
      reSearchValue "apiVersion:".toList content.toList = none ∨
      reSearchValue "kind:".toList content.toList = none) := by
  constructor
  · intro f hf
    unfold parse_templated_yaml at hf
    cases hA : reSearchValue "apiVersion:".toList content.toList with
    | none => rw [hA] at hf; cases hf
    | some va =>
      cases hK : reSearchValue "kind:".toList content.toList with
      | none => rw [hA, hK] at hf; cases hf
      | some vk =>
        rw [hA, hK] at hf
        injection hf with hf
        subst hf
        obtain ⟨ha1, ha2, ha3⟩ := reSearchValue_some hA
        obtain ⟨hk1, hk2, hk3⟩ := reSearchValue_some hK
        exact ⟨⟨va, rfl, rfl, ha1, fun c hc => reValueToken_spec (ha2 c hc), ha3⟩,
               ⟨vk, rfl, rfl, hk1, fun c hc => reValueToken_spec (hk2 c hc), hk3⟩⟩
  · intro hf
    unfold parse_templated_yaml at hf
    cases hA : reSearchValue "apiVersion:".toList content.toList with
    | none => exact Or.inl rfl
    | some va =>
      cases hK : reSearchValue "kind:".toList content.toList with
      | none => exact Or.inr rfl
      | some vk => rw [hA, hK] at hf; cases hf

/-- Witness for `c7_parse_templated_yaml_contract`: the positive
branch evaluated at a concrete templated fragment. -/
theorem c7_parse_templated_yaml_contract_witness :
    (∃ va, reSearchValue "apiVersion:".toList "apiVersion: a/v1 kind: Foo".toList = some va ∧
      (⟨"a/v1", "Foo"⟩ : Frag).apiVersion = String.mk va ∧ va ≠ [] ∧
      (∀ c ∈ va, pyIsSpace c = false ∧ c ≠ '\x7b') ∧
      va <:+: "apiVersion: a/v1 kind: Foo".toList) ∧
    (∃ vk, reSearchValue "kind:".toList "apiVersion: a/v1 kind: Foo".toList = some vk ∧
      (⟨"a/v1", "Foo"⟩ : Frag).kind = String.mk vk ∧ vk ≠ [] ∧
      (∀ c ∈ vk, pyIsSpace c = false ∧ c ≠ '\x7b') ∧
      vk <:+: "apiVersion: a/v1 kind: Foo".toList) :=
  (c7_parse_templated_yaml_contract "apiVersion: a/v1 kind: Foo").1 ⟨"a/v1", "Foo"⟩ rfl

/-- C8: a line whose stripped content starts with `#` is skipped
entirely by the template scanner — the state is unchanged, so it
neither triggers a new fragment boundary nor is appended to the
buffer; in particular a template consisting of commented-out
`apiVersion:`/`kind:` lines produces no fragment at all. -/
theorem c8_comment_lines_skipped :
    (∀ (lines : List String) (st : TState) (line : String),
      pyStartsWith (pyStrip line) "#" = true → stepLine lines st line = st) ∧
    extract_template_content "# apiVersion: fake/v1\n# kind: X" = [] := by
  constructor
  · intro lines st line h
    unfold stepLine stepLineAt
    rw [if_pos h]
  · decide

/-- Witness for `c8_comment_lines_skipped`: the step function at the
specification's comment line leaves a concrete state unchanged. -/
theorem c8_comment_lines_skipped_witness :
    stepLine [] ⟨false, [], []⟩ "# apiVersion: fake/v1" = ⟨false, [], []⟩ :=
  c8_comment_lines_skipped.1 [] ⟨false, [], []⟩ "# apiVersion: fake/v1" (by decide)


lemma catUpdate_snd_irrel (names : List Yaml) :
    ∀ cat cat' : List Yaml, (catUpdate cat names).2 = (catUpdate cat' names).2 := by
  induction names with
  | nil => intro cat cat'; rfl
  | cons n rest ih =>
    intro cat cat'
    unfold catUpdate
    by_cases h : hashableY n = true
    · rw [if_pos h, if_pos h]
      exact ih _ _
    · rw [if_neg h, if_neg h]

lemma extract_details_snd_irrel (d : Yaml) (p : String) (cat cat' : List Yaml) :
    (extract_composition_details d p cat).2 = (extract_composition_details d p cat').2 := by
  cases d with
  | map es =>
    simp only [extract_composition_details]
    by_cases hC : isCompositionDoc es = true
    · rw [if_pos hC, if_pos hC]
      cases compositeKeyOf es with
      | error e => rfl
      | ok ck =>
        cases functionNamesOf es with
        | error e => rfl
        | ok names =>
          cases templateResourcesOf es with
          | error e => rfl
          | ok tres =>
            simp only
            have hcu := catUpdate_snd_irrel names cat cat'
            cases h1 : (catUpdate cat names).2 with
            | error e => rw [← hcu, h1]
            | ok u => rw [← hcu, h1]
    · rw [if_neg hC, if_neg hC]
  | str v => rfl
  | scalar v => rfl
  | nullv => rfl
  | seq xs => rfl

lemma processItems_snd_irrel (p : String) :
    ∀ (items : List (Except Unit (Option Yaml))) (cat cat' : List Yaml),
      (processItems p cat items).2 = (processItems p cat' items).2 := by
  intro items
  induction items with
  | nil => intro cat cat'; rfl
  | cons it rest ih =>
    intro cat cat'
    cases it with
    | error e => rfl
    | ok od =>
      cases od with
      | none => exact ih cat cat'
      | some d =>
        simp only [processItems]
        have hd := extract_details_snd_irrel d p cat cat'
        cases h1 : (extract_composition_details d p cat).2 with
        | error e => rw [← hd, h1]
        | ok rows =>
          rw [← hd, h1]
          simp only
          rw [ih (extract_composition_details d p cat).1 (extract_composition_details d p cat').1]

lemma extract_compositions_snd_irrel :
    ∀ (files : List FileInput) (cat cat' : List Yaml),
      (extract_compositions cat files).2 = (extract_compositions cat' files).2 := by
  intro files
  induction files with
  | nil => intro cat cat'; rfl
  | cons f fs ih =>
    intro cat cat'
    simp only [extract_compositions]
    rw [processItems_snd_irrel f.path f.items cat cat',
      ih (processItems f.path cat f.items).1 (processItems f.path cat' f.items).1]

lemma extract_compositions_append :
    ∀ (fs1 : List FileInput) (cat : List Yaml) (fs2 : List FileInput),
      (extract_compositions cat (fs1 ++ fs2)).2 =
        (extract_compositions cat fs1).2 ++
          (extract_compositions (extract_compositions cat fs1).1 fs2).2 := by
  intro fs1
  induction fs1 with
  | nil => intro cat fs2; rfl
  | cons f fs ih =>
    intro cat fs2
    simp only [List.cons_append, extract_compositions, List.append_eq]
    rw [ih (processItems f.path cat f.items).1 fs2, List.append_assoc]

lemma processItems_stops_at_error (p : String) (rest : List (Except Unit (Option Yaml))) :
    ∀ (items : List (Except Unit (Option Yaml))) (cat : List Yaml),
      (processItems p cat (items ++ Except.error () :: rest)).2 =
        (processItems p cat (items ++ [Except.error ()])).2 := by
  intro items
  induction items with
  | nil => intro cat; rfl
  | cons it its ih =>
    intro cat
    cases it with
    | error e => rfl
    | ok od =>
      cases od with
      | none =>
        simp only [List.cons_append, processItems]
        exact ih cat
      | some d =>
        simp only [List.cons_append, processItems, List.append_eq]
        cases h1 : (extract_composition_details d p cat).2 with
        | error e => rfl
        | ok rows =>
          simp only
          rw [ih (extract_composition_details d p cat).1]

/-- C9: per-file failures are isolated.  First, processing a
concatenation of candidate files yields the concatenation of their
record lists — a failing file never destroys the results of earlier or
later files, and processing continues with the next file.  Second,
inside one file everything after the first raised error is ignored
while the records appended by the documents before it are exactly
retained. -/
theorem c9_per_file_failure_isolation :
    (∀ files1 files2 : List FileInput,
      runRecords (files1 ++ files2) = runRecords files1 ++ runRecords files2) ∧
    (∀ (p : String) (items rest : List (Except Unit (Option Yaml))),
      (processItems p [] (items ++ Except.error () :: rest)).2 =
        (processItems p [] (items ++ [Except.error ()])).2) := by
  constructor
  · intro fs1 fs2
    unfold runRecords
    rw [extract_compositions_append fs1 [] fs2,
      extract_compositions_snd_irrel fs2 (extract_compositions [] fs1).1 []]
  · intro p items rest
    exact processItems_stops_at_error p rest items []

lemma scalarEq_eq : ∀ {m n : Yaml}, scalarEq m n = true → m = n := by
  intro m n h
  cases m <;> cases n <;> simp [scalarEq] at h <;> simp [h]

lemma catInsert_mem_self (cat : List Yaml) (n : Yaml) : n ∈ catInsert cat n := by
  unfold catInsert
  by_cases h : cat.any (fun m => scalarEq m n) = true
  · rw [if_pos h]
    obtain ⟨m, hm, he⟩ := List.any_eq_true.mp h
    rw [← scalarEq_eq he]
    exact hm
  · rw [if_neg h]
    exact List.mem_append_right _ (List.mem_singleton.mpr rfl)

lemma catInsert_subset (cat : List Yaml) (n : Yaml) : ∀ c ∈ cat, c ∈ catInsert cat n := by
  intro c hc
  unfold catInsert
  by_cases h : cat.any (fun m => scalarEq m n) = true
  · rw [if_pos h]; exact hc
  · rw [if_neg h]; exact List.mem_append_left _ hc

lemma catUpdate_ok_mem :
    ∀ (names cat cat2 : List Yaml), catUpdate cat names = (cat2, Except.ok ()) →
      (∀ n ∈ names, n ∈ cat2) ∧ (∀ c ∈ cat, c ∈ cat2) := by
  intro names
  induction names with
  | nil =>
    intro cat cat2 h
    injection h with h1 h2
    subst h1
    exact ⟨fun n hn => absurd hn (List.not_mem_nil n), fun c hc => hc⟩
  | cons n rest ih =>
    intro cat cat2 h
    unfold catUpdate at h
    by_cases hh : hashableY n = true
    · rw [if_pos hh] at h
      obtain ⟨h1, h2⟩ := ih (catInsert cat n) cat2 h
      refine ⟨fun m hm => ?_, fun c hc => h2 _ (catInsert_subset cat n c hc)⟩
      rcases List.mem_cons.mp hm with he | hm2
      · subst he
        exact h2 _ (catInsert_mem_self cat m)
      · exact h1 _ hm2
    · rw [if_neg hh] at h
      injection h with h1 h2
      simp at h2

/-- C10: for a document accepted as a Composition whose pre-emission
steps succeed, the process-wide function catalog returned by the
extractor is the one updated with the pipeline's `functionRef` names —
it contains every name and everything previously in the catalog — and
this holds independently of the outcome of record emission (the
statement never inspects the record component, so a subsequently
raised emission error cannot roll the update back). -/
theorem c10_catalog_updated_before_emission (es : List (String × Yaml)) (path : String)
    (cat : List Yaml) (ck : String) (names : List Yaml) (tres : List Resource)
    (cat2 : List Yaml)
    (hC : isCompositionDoc es = true)
    (hK : compositeKeyOf es = .ok ck)
    (hN : functionNamesOf es = .ok names)
    (hT : templateResourcesOf es = .ok tres)
    (hU : catUpdate cat names = (cat2, .ok ())) :
    (extract_composition_details (.map es) path cat).1 = cat2 ∧
    (∀ n ∈ names, n ∈ cat2) ∧ (∀ c ∈ cat, c ∈ cat2) := by
  refine ⟨?_, (catUpdate_ok_mem names cat cat2 hU).1, (catUpdate_ok_mem names cat cat2 hU).2⟩
  simp only [extract_composition_details, hC, if_true, hK, hN, hT, hU]

/-- Witness for `c10_catalog_updated_before_emission`: a Composition
with one pipeline step referencing `function-patch-and-transform`
leaves exactly that name in the catalog. -/
theorem c10_catalog_updated_before_emission_witness :
    (extract_composition_details
      (.map [("apiVersion", .str "apiextensions.crossplane.io/v1"),
             ("kind", .str "Composition"),
             ("spec", .map [("pipeline", .seq [.map [("functionRef",
               .map [("name", .str "function-patch-and-transform")])]])])])
      "f.yaml" []).1 = [.str "function-patch-and-transform"] :=
  (c10_catalog_updated_before_emission
    [("apiVersion", .str "apiextensions.crossplane.io/v1"),
     ("kind", .str "Composition"),
     ("spec", .map [("pipeline", .seq [.map [("functionRef",
       .map [("name", .str "function-patch-and-transform")])]])])]
    "f.yaml" [] "N/A_N/A" [.str "function-patch-and-transform"] []
    [.str "function-patch-and-transform"] rfl rfl rfl rfl rfl).1


lemma stepLine_trigger_fresh (full : List String) (st : TState) (line : String)
    (hc : pyStartsWith (pyStrip line) "#" = false)
    (ht : containsSub "apiVersion:" line = true)
    (hw : containsSub "kind:" (String.join ((full.drop (pyIndex full line)).take 3)) = true)
    (hs : pyStrip line ≠ "---")
    (hy : st.inYaml = false) :
    stepLine full st line = ⟨true, [line], st.yamlDocs⟩ := by
  obtain ⟨iy, cd, yd⟩ := st
  simp only at hy
  subst hy
  unfold stepLine stepLineAt
  simp [hc, ht, hw, hs]

lemma stepLine_separator (full : List String) (st : TState) (hy : st.inYaml = true) :
    stepLine full st "---" = ⟨false, [],
      st.yamlDocs ++ [parse_templated_yaml (joinSpace (st.currentDoc ++ ["---"]))]⟩ := by
  obtain ⟨iy, cd, yd⟩ := st
  simp only at hy
  subst hy
  unfold stepLine stepLineAt
  simp [show pyStartsWith (pyStrip "---") "#" = false from by decide,
        show pyStartsWith "---" "#" = false from by decide,
        show containsSub "apiVersion:" "---" = false from by decide,
        show pyStrip "---" = "---" from by decide]

lemma foldl_stepLine_plain (full : List String) :
    ∀ (ls : List String) (st : TState),
      (∀ l ∈ ls, pyStartsWith (pyStrip l) "#" = false ∧
        containsSub "apiVersion:" l = false ∧ pyStrip l ≠ "---") →
      st.inYaml = true →
      ls.foldl (stepLine full) st = ⟨true, st.currentDoc ++ ls, st.yamlDocs⟩ := by
  intro ls
  induction ls with
  | nil =>
    intro st h hy
    obtain ⟨iy, cd, yd⟩ := st
    simp only at hy
    subst hy
    simp
  | cons l rest ih =>
    intro st h hy
    obtain ⟨hc, ha, hs⟩ := h l (List.mem_cons_self l rest)
    obtain ⟨iy, cd, yd⟩ := st
    simp only at hy
    subst hy
    have hstep : stepLine full ⟨true, cd, yd⟩ l = ⟨true, cd ++ [l], yd⟩ := by
      unfold stepLine stepLineAt
      simp [hc, ha, hs]
    rw [List.foldl_cons, hstep,
      ih ⟨true, cd ++ [l], yd⟩ (fun x hx => h x (List.mem_cons_of_mem l hx)) rfl]
    simp

/-- C6 counterexample: this blob consists of exactly two fragments
separated by a line containing only `---`, each fragment starting
with a line containing `apiVersion:` followed on the next line by
`kind:` — yet the extractor returns three parsed fragments, because
the second fragment contains a further `apiVersion:` line that
triggers an additional boundary.  The claim's universal two-fragment
statement is therefore false as stated. -/
theorem c6_counterexample :
    (extract_template_content
        "apiVersion: a\nkind: K1\n---\napiVersion: b\nkind: K2\napiVersion: c\nkind: K3").length ≠ 2 ∧
    extract_template_content
        "apiVersion: a\nkind: K1\n---\napiVersion: b\nkind: K2\napiVersion: c\nkind: K3" =
      [⟨"a", "K1"⟩, ⟨"b", "K2"⟩, ⟨"c", "K3"⟩] := by
  constructor
  · decide
  · decide

/-- C6 (amended): for a blob of two fragments separated by a line
containing only `---`, where each fragment opens with a line
containing `apiVersion:` whose three-line confirmation window
contains `kind:`, no other line of either fragment contains
`apiVersion:` (no internal trigger), is a comment, or strips to
`---`, and each flushed fragment parses to a non-empty result, the
extractor returns exactly those two parsed fragments in encounter
order.  (The first flush includes the separator line in the buffer,
as the source appends the current line before testing it.) -/
theorem c6_two_fragments (l1 l2 : String) (r1 r2 : List String) (f1 f2 : Frag)
    (hc1 : pyStartsWith (pyStrip l1) "#" = false)
    (ht1 : containsSub "apiVersion:" l1 = true)
    (hw1 : containsSub "kind:" (String.join (((((l1 :: r1) ++ "---" :: l2 :: r2)).drop
      (pyIndex ((l1 :: r1) ++ "---" :: l2 :: r2) l1)).take 3)) = true)
    (hs1 : pyStrip l1 ≠ "---")
    (hr1 : ∀ l ∈ r1, pyStartsWith (pyStrip l) "#" = false ∧
      containsSub "apiVersion:" l = false ∧ pyStrip l ≠ "---")
    (hc2 : pyStartsWith (pyStrip l2) "#" = false)
    (ht2 : containsSub "apiVersion:" l2 = true)
    (hw2 : containsSub "kind:" (String.join (((((l1 :: r1) ++ "---" :: l2 :: r2)).drop
      (pyIndex ((l1 :: r1) ++ "---" :: l2 :: r2) l2)).take 3)) = true)
    (hs2 : pyStrip l2 ≠ "---")
    (hr2 : ∀ l ∈ r2, pyStartsWith (pyStrip l) "#" = false ∧
      containsSub "apiVersion:" l = false ∧ pyStrip l ≠ "---")
    (hp1 : parse_templated_yaml (joinSpace ((l1 :: r1) ++ ["---"])) = some f1)
    (hp2 : parse_templated_yaml (joinSpace (l2 :: r2)) = some f2) :
    extractTemplateLines ((l1 :: r1) ++ "---" :: l2 :: r2) = [f1, f2] := by
  unfold extractTemplateLines
  have h1 : stepLine ((l1 :: r1) ++ "---" :: l2 :: r2) ⟨false, [], []⟩ l1 =
      ⟨true, [l1], []⟩ :=
    stepLine_trigger_fresh _ _ _ hc1 ht1 hw1 hs1 rfl
  have h2 : r1.foldl (stepLine ((l1 :: r1) ++ "---" :: l2 :: r2)) ⟨true, [l1], []⟩ =
      ⟨true, l1 :: r1, []⟩ := by
    rw [foldl_stepLine_plain _ r1 ⟨true, [l1], []⟩ hr1 rfl]
    simp
  have h3 : stepLine ((l1 :: r1) ++ "---" :: l2 :: r2) ⟨true, l1 :: r1, []⟩ "---" =
      ⟨false, [], [parse_templated_yaml (joinSpace ((l1 :: r1) ++ ["---"]))]⟩ := by
    rw [stepLine_separator _ ⟨true, l1 :: r1, []⟩ rfl]
    simp
  have h4 : stepLine ((l1 :: r1) ++ "---" :: l2 :: r2)
      ⟨false, [], [parse_templated_yaml (joinSpace ((l1 :: r1) ++ ["---"]))]⟩ l2 =
      ⟨true, [l2], [parse_templated_yaml (joinSpace ((l1 :: r1) ++ ["---"]))]⟩ :=
    stepLine_trigger_fresh _ _ _ hc2 ht2 hw2 hs2 rfl
  have h5 : r2.foldl (stepLine ((l1 :: r1) ++ "---" :: l2 :: r2))
      ⟨true, [l2], [parse_templated_yaml (joinSpace ((l1 :: r1) ++ ["---"]))]⟩ =
      ⟨true, l2 :: r2, [parse_templated_yaml (joinSpace ((l1 :: r1) ++ ["---"]))]⟩ := by
    rw [foldl_stepLine_plain _ r2 _ hr2 rfl]
    simp
  have hfold : ((l1 :: r1) ++ "---" :: l2 :: r2).foldl
      (stepLine ((l1 :: r1) ++ "---" :: l2 :: r2)) ⟨false, [], []⟩ =
      ⟨true, l2 :: r2, [parse_templated_yaml (joinSpace ((l1 :: r1) ++ ["---"]))]⟩ := by
    show List.foldl (stepLine ((l1 :: r1) ++ "---" :: l2 :: r2)) ⟨false, [], []⟩
      (l1 :: (r1 ++ "---" :: l2 :: r2)) = _
    rw [List.foldl_cons, h1, List.foldl_append, h2, List.foldl_cons, h3,
      List.foldl_cons, h4, h5]
  rw [hfold]
  unfold flushTState
  rw [hp1, hp2]
  simp

/-- Witness for `c6_two_fragments`: a concrete two-stanza blob
yielding exactly its two fragments. -/
theorem c6_two_fragments_witness :
    extractTemplateLines (("apiVersion: a" :: ["kind: K1"]) ++
      "---" :: "apiVersion: b" :: ["kind: K2"]) = [⟨"a", "K1"⟩, ⟨"b", "K2"⟩] :=
  c6_two_fragments "apiVersion: a" "apiVersion: b" ["kind: K1"] ["kind: K2"]
    ⟨"a", "K1"⟩ ⟨"b", "K2"⟩
    (by decide) (by decide) (by decide) (by decide) (by decide)
    (by decide) (by decide) (by decide) (by decide) (by decide)
    (by decide) (by decide)

end AnalyzeCompositions
